import Mathlib

/-!
Shallow embedding of `app.py` (jewellery color analyzer).

Python dictionaries preserve insertion order, so the nested
recommendation database is modelled as an association list; a Python
set of body-part strings is modelled as the list of its elements in
enumeration order.  Floating-point percentages are modelled as exact
rationals.  The external k-means fit (scikit-learn `KMeans`) is
modelled as a function parameter returning cluster centers and one
label per sample; everything computed from its output (`np.bincount`,
the percentage formula, `np.argsort`) is embedded directly.
-/

/-- A pixel / cluster color: the integer triple `(r, g, b)`. -/
structure RGB where
  r : Nat
  g : Nat
  b : Nat
deriving DecidableEq, Repr

/-- `LABELS = ["Gold", "Silver", "Rose Gold", "Platinum", "Bronze"]` (fallback order). -/
def LABELS : List String := ["Gold", "Silver", "Rose Gold", "Platinum", "Bronze"]

/-- `RECOMMENDATION_DB`: metal -> body part -> list of items, in source order. -/
def RECOMMENDATION_DB : List (String × List (String × List String)) :=
  [("Gold",
     [("hand", ["Gold Ring (G-Ring1)", "Gold Bracelet (G-Bracelet1)"]),
      ("ear", ["Gold Hoop Earrings (G-Ear1)", "Gold Studs (G-Ear2)"]),
      ("neck", ["Gold Necklace (G-Neck1)"])]),
   ("Silver",
     [("hand", ["Silver Ring (S-Ring1)", "Silver Bracelet (S-Bracelet1)"]),
      ("ear", ["Silver Drop Earrings (S-Ear1)"]),
      ("neck", ["Silver Pendant (S-Neck1)"])]),
   ("Rose Gold",
     [("hand", ["Rose Gold Ring (R-Ring1)"]),
      ("ear", ["Rose Gold Hoop (R-Ear1)"]),
      ("neck", ["Rose Gold Pendant (R-Neck1)"])]),
   ("Platinum",
     [("hand", ["Platinum Band (P-Ring1)"]),
      ("ear", ["Platinum Studs (P-Ear1)"]),
      ("neck", ["Platinum Chain (P-Neck1)"])]),
   ("Bronze",
     [("hand", ["Bronze Bracelet (B-Bracelet1)"]),
      ("ear", ["Bronze Hoops (B-Ear1)"]),
      ("neck", ["Bronze Choker (B-Neck1)"])])]

/-- `RECOMMENDATION_DB.get(metal, {})`: the part -> items table of a metal. -/
def dbGet (metal : String) : List (String × List String) :=
  match RECOMMENDATION_DB.find? (fun p => p.1 == metal) with
  | some p => p.2
  | none => []

/-- `RECOMMENDATION_DB.get(metal, {}).get(part, [])`. -/
def dbGetPart (metal part : String) : List String :=
  match (dbGet metal).find? (fun p => p.1 == part) with
  | some p => p.2
  | none => []

/-- `color_to_metal(rgb)` (app.py lines 67-74). -/
def color_to_metal (c : RGB) : String :=
  if c.r > c.g ∧ c.r > c.b then "Gold"
  else if c.b > c.r ∧ c.b > c.g then "Silver"
  else "Rose Gold"

/-- The index order used by `np.argsort` on a small array: ascending value,
equal values in ascending index order (stable). -/
def idxLe (ps : List ℚ) (i j : Nat) : Prop :=
  ps.getD i 0 < ps.getD j 0 ∨ (ps.getD i 0 = ps.getD j 0 ∧ i ≤ j)

instance idxLe.dec (ps : List ℚ) : DecidableRel (idxLe ps) := fun i j =>
  inferInstanceAs (Decidable (ps.getD i 0 < ps.getD j 0 ∨ (ps.getD i 0 = ps.getD j 0 ∧ i ≤ j)))

/-- `np.argsort(percentages)` (app.py line 79): indices sorted by value ascending. -/
def argsort (ps : List ℚ) : List Nat :=
  List.insertionSort (idxLe ps) (List.range ps.length)

/-- The append-if-absent pattern `if x not in acc: acc.append(x)`
(app.py lines 83-84, 121-122, 130-131). -/
def dedup_append (acc : List String) (x : String) : List String :=
  if x ∈ acc then acc else acc ++ [x]

/-- The first loop of `recommend_unique_metals` (app.py lines 81-86):
walk `idx_sorted`, classify each cluster color, append unseen labels,
break once `top_k` labels are collected. -/
def recommend_loop (colors : List RGB) (idxs : List Nat) (top_k : Nat)
    (metals : List String) : List String :=
  match idxs with
  | [] => metals
  | idx :: rest =>
    if top_k ≤ (dedup_append metals (color_to_metal (colors.getD idx ⟨0, 0, 0⟩))).length then
      dedup_append metals (color_to_metal (colors.getD idx ⟨0, 0, 0⟩))
    else recommend_loop colors rest top_k
      (dedup_append metals (color_to_metal (colors.getD idx ⟨0, 0, 0⟩)))

/-- The fallback-padding loop of `recommend_unique_metals` (app.py lines 87-91). -/
def pad_loop (labs : List String) (top_k : Nat) (metals : List String) : List String :=
  match labs with
  | [] => metals
  | lab :: rest =>
    if top_k ≤ metals.length then metals
    else if lab ∈ metals then pad_loop rest top_k metals
    else pad_loop rest top_k (metals ++ [lab])

/-- `recommend_unique_metals(colors, percentages, top_k)` (app.py lines 76-92):
`idx_sorted = np.argsort(percentages)[::-1]`, the classification loop, the
fallback-padding loop, and the final `metals[:top_k]`. -/
def recommend_unique_metals (colors : List RGB) (percentages : List ℚ)
    (top_k : Nat) : List String :=
  if colors.length = 0 then []
  else
    (pad_loop LABELS top_k
      (recommend_loop colors ((argsort percentages).reverse) top_k [])).take top_k

/-- Tier-1 inner item loop (app.py lines 110-113): append the first item
not already selected, then break. -/
def tier1_pick (items : List String) (acc : List String) : List String :=
  match items with
  | [] => acc
  | it :: rest => if it ∈ acc then tier1_pick rest acc else acc ++ [it]

/-- Tier-1 part loop (app.py lines 105-115).  `Except.error v` models the
early `return final_items[:top_n]`. -/
def tier1_parts (metal : String) (parts : List String) (top_n : Nat)
    (acc : List String) : Except (List String) (List String) :=
  match parts with
  | [] => .ok acc
  | part :: rest =>
    if part = "unsure" then tier1_parts metal rest top_n acc
    else if top_n ≤ (tier1_pick (dbGetPart metal part) acc).length then
      .error ((tier1_pick (dbGetPart metal part) acc).take top_n)
    else tier1_parts metal rest top_n (tier1_pick (dbGetPart metal part) acc)

/-- Tier-1 metal loop (app.py lines 104-115). -/
def tier1_scan (metals parts : List String) (top_n : Nat)
    (acc : List String) : Except (List String) (List String) :=
  match metals with
  | [] => .ok acc
  | m :: rest =>
    match tier1_parts m parts top_n acc with
    | .error v => .error v
    | .ok a => tier1_scan rest parts top_n a

/-- Inner item loop shared by tiers 2 and 3 (app.py lines 120-124 and
129-133): append each unseen item, early-return once `top_n` is reached. -/
def items_scan (items : List String) (top_n : Nat)
    (acc : List String) : Except (List String) (List String) :=
  match items with
  | [] => .ok acc
  | it :: rest =>
    if top_n ≤ (dedup_append acc it).length then
      .error ((dedup_append acc it).take top_n)
    else items_scan rest top_n (dedup_append acc it)

/-- Loop over the `(part, items)` pairs of one metal, used by tier 2
(`.items()`, line 119) and tier 3 (`.values()`, line 128): both visit
the same item lists in the same dictionary order. -/
def parts_scan (pairs : List (String × List String)) (top_n : Nat)
    (acc : List String) : Except (List String) (List String) :=
  match pairs with
  | [] => .ok acc
  | p :: rest =>
    match items_scan p.2 top_n acc with
    | .error v => .error v
    | .ok a => parts_scan rest top_n a

/-- Outer metal loop of tier 2 (app.py lines 118-124); tier 3
(lines 127-133) is the same loop run on `LABELS`. -/
def metals_scan (ms : List String) (top_n : Nat)
    (acc : List String) : Except (List String) (List String) :=
  match ms with
  | [] => .ok acc
  | m :: rest =>
    match parts_scan (dbGet m) top_n acc with
    | .error v => .error v
    | .ok a => metals_scan rest top_n a

/-- `get_recommendations_for_parts(metals, parts, top_n)` (app.py lines 95-135).
`parts` is the enumeration order of the Python set of body parts. -/
def get_recommendations_for_parts (metals parts : List String)
    (top_n : Nat) : List String :=
  match tier1_scan metals parts top_n [] with
  | .error v => v
  | .ok a1 =>
    match metals_scan metals top_n a1 with
    | .error v => v
    | .ok a2 =>
      match metals_scan LABELS top_n a2 with
      | .error v => v
      | .ok a3 => a3.take top_n

/-- `np.bincount(labels, minlength=clusters)` (app.py line 51) for labels
all below `clusters`. -/
def bincount (clusters : Nat) (labels : List Nat) : List Nat :=
  (List.range clusters).map (fun i => labels.count i)

/-- `(counts / counts.sum()) * 100` (app.py line 52), in exact rationals. -/
def percentagesOf (clusters : Nat) (labels : List Nat) : List ℚ :=
  (bincount clusters labels).map
    (fun c : Nat => ((c : ℚ) / ((bincount clusters labels).sum : ℚ)) * 100)

/-- `extract_color_from_pixel_array(pixel_array, clusters)` (app.py lines 47-53).
The `KMeans(...).fit_predict` call is abstracted as `kmeans`, returning the
cluster centers (already cast to int) and one label per sample. -/
def extract_color_from_pixel_array (kmeans : List RGB → List RGB × List Nat)
    (pixel_array : List RGB) (clusters : Nat) : List RGB × List ℚ :=
  ((kmeans pixel_array).1, percentagesOf clusters (kmeans pixel_array).2)

/-- `combine_and_extract(images, clusters)` (app.py lines 55-64).  The
resize-and-flatten of one image (lines 58-59) is abstracted as
`resizeFlatten`; `if not all_pixels` guards the zero-image case. -/
def combine_and_extract {Image : Type} (resizeFlatten : Image → List RGB)
    (kmeans : List RGB → List RGB × List Nat) (images : List Image)
    (clusters : Nat) : List RGB × List ℚ :=
  let all_pixels := images.map resizeFlatten
  if all_pixels.isEmpty then ([], [])
  else extract_color_from_pixel_array kmeans all_pixels.flatten clusters

/-- A degenerate stand-in clustering function assigning every sample to
cluster 0, used to instantiate theorems about the clustering stage at
concrete inputs. -/
def constKMeans : List RGB → List RGB × List Nat :=
  fun pa => (pa, pa.map (fun _ => 0))

instance idxLe.isTotal (ps : List ℚ) : IsTotal Nat (idxLe ps) := by
  constructor
  intro i j
  rcases lt_trichotomy (ps.getD i 0) (ps.getD j 0) with h | h | h
  · exact Or.inl (Or.inl h)
  · rcases Nat.le_total i j with hij | hij
    · exact Or.inl (Or.inr ⟨h, hij⟩)
    · exact Or.inr (Or.inr ⟨h.symm, hij⟩)
  · exact Or.inr (Or.inl h)

instance idxLe.isTrans (ps : List ℚ) : IsTrans Nat (idxLe ps) := by
  constructor
  intro a b c hab hbc
  rcases hab with h1 | ⟨e1, l1⟩
  · rcases hbc with h2 | ⟨e2, l2⟩
    · exact Or.inl (h1.trans h2)
    · exact Or.inl (e2 ▸ h1)
  · rcases hbc with h2 | ⟨e2, l2⟩
    · exact Or.inl (e1.symm ▸ h2)
    · exact Or.inr ⟨e1.trans e2, l1.trans l2⟩

theorem nodup_snoc (l : List String) (x : String) (h : l.Nodup) (hx : x ∉ l) :
    (l ++ [x]).Nodup :=
  h.append (List.nodup_singleton x)
    (by intro a ha hb; rw [List.mem_singleton] at hb; exact hx (hb ▸ ha))

theorem dedup_append_nodup (acc : List String) (it : String) (h : acc.Nodup) :
    (dedup_append acc it).Nodup := by
  unfold dedup_append
  split
  · exact h
  · next hit => exact nodup_snoc acc it h hit

theorem mem_dedup_append (acc : List String) (it x : String)
    (hx : x ∈ acc ∨ x = it) : x ∈ dedup_append acc it := by
  unfold dedup_append
  split
  · next hit =>
    rcases hx with h | h
    · exact h
    · exact h ▸ hit
  · rcases hx with h | h
    · exact List.mem_append_left _ h
    · subst h; exact List.mem_append_right _ (by simp)

theorem tier1_pick_nodup (items : List String) : ∀ acc : List String,
    acc.Nodup → (tier1_pick items acc).Nodup := by
  induction items with
  | nil => intro acc h; exact h
  | cons it rest ih =>
    intro acc h
    rw [tier1_pick]
    split
    · exact ih acc h
    · next hit => exact nodup_snoc acc it h hit

theorem tier1_parts_err_len (metal : String) (parts : List String) :
    ∀ (top_n : Nat) (acc v : List String),
      tier1_parts metal parts top_n acc = .error v → v.length = top_n := by
  induction parts with
  | nil => intro top_n acc v h; simp [tier1_parts] at h
  | cons part rest ih =>
    intro top_n acc v h
    rw [tier1_parts] at h
    split at h
    · exact ih top_n acc v h
    · split at h
      · next hl =>
        injection h with h
        subst h
        rw [List.length_take]
        omega
      · exact ih _ _ _ h

theorem tier1_parts_nodup (metal : String) (parts : List String) :
    ∀ (top_n : Nat) (acc : List String), acc.Nodup →
      (∀ v, tier1_parts metal parts top_n acc = .error v → v.Nodup) ∧
      (∀ a, tier1_parts metal parts top_n acc = .ok a → a.Nodup) := by
  induction parts with
  | nil =>
    intro top_n acc h
    constructor
    · intro v hv; simp [tier1_parts] at hv
    · intro a ha; simp [tier1_parts] at ha; exact ha ▸ h
  | cons part rest ih =>
    intro top_n acc h
    rw [tier1_parts]
    split
    · exact ih top_n acc h
    · split
      · constructor
        · intro v hv
          injection hv with hv
          subst hv
          exact (List.take_sublist _ _).nodup (tier1_pick_nodup _ acc h)
        · intro a ha; simp at ha
      · exact ih top_n _ (tier1_pick_nodup _ acc h)

theorem tier1_scan_err_len (metals : List String) :
    ∀ (parts : List String) (top_n : Nat) (acc v : List String),
      tier1_scan metals parts top_n acc = .error v → v.length = top_n := by
  induction metals with
  | nil => intro parts top_n acc v h; simp [tier1_scan] at h
  | cons m rest ih =>
    intro parts top_n acc v h
    rw [tier1_scan] at h
    split at h
    · next w hw =>
      injection h with h
      subst h
      exact tier1_parts_err_len m parts top_n acc w hw
    · next a ha => exact ih parts top_n a v h

theorem tier1_scan_nodup (metals : List String) :
    ∀ (parts : List String) (top_n : Nat) (acc : List String), acc.Nodup →
      (∀ v, tier1_scan metals parts top_n acc = .error v → v.Nodup) ∧
      (∀ a, tier1_scan metals parts top_n acc = .ok a → a.Nodup) := by
  induction metals with
  | nil =>
    intro parts top_n acc h
    constructor
    · intro v hv; simp [tier1_scan] at hv
    · intro a ha; simp [tier1_scan] at ha; exact ha ▸ h
  | cons m rest ih =>
    intro parts top_n acc h
    rw [tier1_scan]
    split
    · next w hw =>
      constructor
      · intro v hv
        injection hv with hv
        subst hv
        exact (tier1_parts_nodup m parts top_n acc h).1 w hw
      · intro a ha; simp at ha
    · next b hb =>
      exact ih parts top_n b ((tier1_parts_nodup m parts top_n acc h).2 b hb)

theorem items_scan_err_len (items : List String) :
    ∀ (top_n : Nat) (acc v : List String),
      items_scan items top_n acc = .error v → v.length = top_n := by
  induction items with
  | nil => intro top_n acc v h; simp [items_scan] at h
  | cons it rest ih =>
    intro top_n acc v h
    rw [items_scan] at h
    split at h
    · next hl =>
      injection h with h
      subst h
      rw [List.length_take]
      omega
    · exact ih _ _ _ h

theorem items_scan_nodup (items : List String) :
    ∀ (top_n : Nat) (acc : List String), acc.Nodup →
      (∀ v, items_scan items top_n acc = .error v → v.Nodup) ∧
      (∀ a, items_scan items top_n acc = .ok a → a.Nodup) := by
  induction items with
  | nil =>
    intro top_n acc h
    constructor
    · intro v hv; simp [items_scan] at hv
    · intro a ha; simp [items_scan] at ha; exact ha ▸ h
  | cons it rest ih =>
    intro top_n acc h
    rw [items_scan]
    split
    · constructor
      · intro v hv
        injection hv with hv
        subst hv
        exact (List.take_sublist _ _).nodup (dedup_append_nodup acc it h)
      · intro a ha; simp at ha
    · exact ih top_n (dedup_append acc it) (dedup_append_nodup acc it h)

theorem items_scan_ok_mem (items : List String) :
    ∀ (top_n : Nat) (acc a : List String),
      items_scan items top_n acc = .ok a →
      ∀ x, (x ∈ acc ∨ x ∈ items) → x ∈ a := by
  induction items with
  | nil =>
    intro top_n acc a h x hx
    simp [items_scan] at h
    subst h
    rcases hx with h1 | h1
    · exact h1
    · simp at h1
  | cons it rest ih =>
    intro top_n acc a h x hx
    rw [items_scan] at h
    split at h
    · simp at h
    · refine ih _ _ _ h x ?_
      rcases hx with h1 | h1
      · exact Or.inl (mem_dedup_append acc it x (Or.inl h1))
      · rw [List.mem_cons] at h1
        rcases h1 with h1 | h1
        · exact Or.inl (mem_dedup_append acc it x (Or.inr h1))
        · exact Or.inr h1

theorem parts_scan_err_len (pairs : List (String × List String)) :
    ∀ (top_n : Nat) (acc v : List String),
      parts_scan pairs top_n acc = .error v → v.length = top_n := by
  induction pairs with
  | nil => intro top_n acc v h; simp [parts_scan] at h
  | cons p rest ih =>
    intro top_n acc v h
    rw [parts_scan] at h
    split at h
    · next w hw =>
      injection h with h
      subst h
      exact items_scan_err_len p.2 top_n acc w hw
    · next b hb => exact ih top_n b v h

theorem parts_scan_nodup (pairs : List (String × List String)) :
    ∀ (top_n : Nat) (acc : List String), acc.Nodup →
      (∀ v, parts_scan pairs top_n acc = .error v → v.Nodup) ∧
      (∀ a, parts_scan pairs top_n acc = .ok a → a.Nodup) := by
  induction pairs with
  | nil =>
    intro top_n acc h
    constructor
    · intro v hv; simp [parts_scan] at hv
    · intro a ha; simp [parts_scan] at ha; exact ha ▸ h
  | cons p rest ih =>
    intro top_n acc h
    rw [parts_scan]
    split
    · next w hw =>
      constructor
      · intro v hv
        injection hv with hv
        subst hv
        exact (items_scan_nodup p.2 top_n acc h).1 w hw
      · intro a ha; simp at ha
    · next b hb =>
      exact ih top_n b ((items_scan_nodup p.2 top_n acc h).2 b hb)

theorem parts_scan_ok_mem (pairs : List (String × List String)) :
    ∀ (top_n : Nat) (acc a : List String),
      parts_scan pairs top_n acc = .ok a →
      ∀ x, (x ∈ acc ∨ ∃ p ∈ pairs, x ∈ p.2) → x ∈ a := by
  induction pairs with
  | nil =>
    intro top_n acc a h x hx
    simp [parts_scan] at h
    subst h
    rcases hx with h1 | ⟨p, hp, _⟩
    · exact h1
    · simp at hp
  | cons p rest ih =>
    intro top_n acc a h x hx
    rw [parts_scan] at h
    split at h
    · simp at h
    · next b hb =>
      refine ih top_n b a h x ?_
      rcases hx with h1 | ⟨q, hq, hxq⟩
      · exact Or.inl (items_scan_ok_mem p.2 top_n acc b hb x (Or.inl h1))
      · rw [List.mem_cons] at hq
        rcases hq with hq | hq
        · exact Or.inl (items_scan_ok_mem p.2 top_n acc b hb x (Or.inr (hq ▸ hxq)))
        · exact Or.inr ⟨q, hq, hxq⟩

theorem metals_scan_err_len (ms : List String) :
    ∀ (top_n : Nat) (acc v : List String),
      metals_scan ms top_n acc = .error v → v.length = top_n := by
  induction ms with
  | nil => intro top_n acc v h; simp [metals_scan] at h
  | cons m rest ih =>
    intro top_n acc v h
    rw [metals_scan] at h
    split at h
    · next w hw =>
      injection h with h
      subst h
      exact parts_scan_err_len (dbGet m) top_n acc w hw
    · next b hb => exact ih top_n b v h

theorem metals_scan_nodup (ms : List String) :
    ∀ (top_n : Nat) (acc : List String), acc.Nodup →
      (∀ v, metals_scan ms top_n acc = .error v → v.Nodup) ∧
      (∀ a, metals_scan ms top_n acc = .ok a → a.Nodup) := by
  induction ms with
  | nil =>
    intro top_n acc h
    constructor
    · intro v hv; simp [metals_scan] at hv
    · intro a ha; simp [metals_scan] at ha; exact ha ▸ h
  | cons m rest ih =>
    intro top_n acc h
    rw [metals_scan]
    split
    · next w hw =>
      constructor
      · intro v hv
        injection hv with hv
        subst hv
        exact (parts_scan_nodup (dbGet m) top_n acc h).1 w hw
      · intro a ha; simp at ha
    · next b hb =>
      exact ih top_n b ((parts_scan_nodup (dbGet m) top_n acc h).2 b hb)

theorem metals_scan_ok_mem (ms : List String) :
    ∀ (top_n : Nat) (acc a : List String),
      metals_scan ms top_n acc = .ok a →
      ∀ x, (x ∈ acc ∨ ∃ m ∈ ms, ∃ p ∈ dbGet m, x ∈ p.2) → x ∈ a := by
  induction ms with
  | nil =>
    intro top_n acc a h x hx
    simp [metals_scan] at h
    subst h
    rcases hx with h1 | ⟨m, hm, _⟩
    · exact h1
    · simp at hm
  | cons m rest ih =>
    intro top_n acc a h x hx
    rw [metals_scan] at h
    split at h
    · simp at h
    · next b hb =>
      refine ih top_n b a h x ?_
      rcases hx with h1 | ⟨n, hn, hp⟩
      · exact Or.inl (parts_scan_ok_mem (dbGet m) top_n acc b hb x (Or.inl h1))
      · rw [List.mem_cons] at hn
        rcases hn with hn | hn
        · exact Or.inl (parts_scan_ok_mem (dbGet m) top_n acc b hb x (Or.inr (hn ▸ hp)))
        · exact Or.inr ⟨n, hn, hp⟩

theorem tier1_parts_filter (metal : String) (parts : List String) :
    ∀ (top_n : Nat) (acc : List String),
      tier1_parts metal (parts.filter (fun p => p ≠ "unsure")) top_n acc =
        tier1_parts metal parts top_n acc := by
  induction parts with
  | nil => intro top_n acc; rfl
  | cons part rest ih =>
    intro top_n acc
    by_cases hp : part = "unsure"
    · rw [List.filter_cons_of_neg (by simp [hp])]
      rw [ih]
      conv_rhs => rw [tier1_parts]
      rw [if_pos hp]
    · rw [List.filter_cons_of_pos (by simp [hp])]
      conv_lhs => rw [tier1_parts]
      conv_rhs => rw [tier1_parts]
      rw [if_neg hp, if_neg hp]
      split
      · rfl
      · exact ih top_n _

theorem tier1_scan_filter (metals : List String) :
    ∀ (parts : List String) (top_n : Nat) (acc : List String),
      tier1_scan metals (parts.filter (fun p => p ≠ "unsure")) top_n acc =
        tier1_scan metals parts top_n acc := by
  induction metals with
  | nil => intro parts top_n acc; rfl
  | cons m rest ih =>
    intro parts top_n acc
    rw [tier1_scan]
    conv_rhs => rw [tier1_scan]
    rw [tier1_parts_filter]
    split
    · rfl
    · exact ih parts top_n _

/-- C2: for every metals list, every parts enumeration, and every `top_n`,
`get_recommendations_for_parts` returns a list with no duplicate item
strings and with length at most `top_n`. -/
theorem claim_C2 (metals parts : List String) (top_n : Nat) :
    (get_recommendations_for_parts metals parts top_n).Nodup ∧
    (get_recommendations_for_parts metals parts top_n).length ≤ top_n := by
  unfold get_recommendations_for_parts
  split
  · next v hv =>
    exact ⟨(tier1_scan_nodup metals parts top_n [] List.nodup_nil).1 v hv,
      le_of_eq (tier1_scan_err_len metals parts top_n [] v hv)⟩
  · next a1 h1 =>
    have ha1 : a1.Nodup := (tier1_scan_nodup metals parts top_n [] List.nodup_nil).2 a1 h1
    split
    · next v hv =>
      exact ⟨(metals_scan_nodup metals top_n a1 ha1).1 v hv,
        le_of_eq (metals_scan_err_len metals top_n a1 v hv)⟩
    · next a2 h2 =>
      have ha2 : a2.Nodup := (metals_scan_nodup metals top_n a1 ha1).2 a2 h2
      split
      · next v hv =>
        exact ⟨(metals_scan_nodup LABELS top_n a2 ha2).1 v hv,
          le_of_eq (metals_scan_err_len LABELS top_n a2 v hv)⟩
      · next a3 h3 =>
        have ha3 : a3.Nodup := (metals_scan_nodup LABELS top_n a2 ha2).2 a3 h3
        refine ⟨(List.take_sublist _ _).nodup ha3, ?_⟩
        rw [List.length_take]
        omega

/-- C4 counterexample: on ranked metals `[Gold, Silver]`, parts `{hand}`,
`top_n = 3`, the function does not return the claimed two-element list. -/
theorem claim_C4_counterexample :
    get_recommendations_for_parts ["Gold", "Silver"] ["hand"] 3 ≠
      ["Gold Ring (G-Ring1)", "Silver Ring (S-Ring1)"] := by decide

/-- C4 (amended): tier 1 yields the two part-matched rings, and tier 2 then
always runs and adds a third item from any Gold part, so the result is the
three-element list below. -/
theorem claim_C4 :
    get_recommendations_for_parts ["Gold", "Silver"] ["hand"] 3 =
      ["Gold Ring (G-Ring1)", "Silver Ring (S-Ring1)",
       "Gold Bracelet (G-Bracelet1)"] := by decide

/-- C5 counterexample: two enumerations of the same parts set
`{hand, ear}` produce different outputs, so the function is not
invariant under the enumeration order of the set. -/
theorem claim_C5_counterexample :
    (["hand", "ear"] : List String).Perm ["ear", "hand"] ∧
    get_recommendations_for_parts ["Gold"] ["hand", "ear"] 3 ≠
      get_recommendations_for_parts ["Gold"] ["ear", "hand"] 3 := by
  constructor
  · decide
  · decide

/-- C5 (amended): the output is a pure function of the metals list, the
enumeration sequence of the parts set, and `top_n`; it is invariant under
dropping `"unsure"` entries from that enumeration (only tier 1 reads the
parts, and it skips `"unsure"`), though not under reordering it. -/
theorem claim_C5 (metals parts : List String) (top_n : Nat) :
    get_recommendations_for_parts metals (parts.filter (fun p => p ≠ "unsure"))
      top_n = get_recommendations_for_parts metals parts top_n := by
  unfold get_recommendations_for_parts
  rw [tier1_scan_filter]

/-- C10: with the static catalog, the result is nonempty whenever
`top_n ≥ 1`, for every metals list (including `[]`) and every parts set:
either some tier early-returns a list of length exactly `top_n`, or tier 3
has walked the whole catalog and collected at least `"Gold Ring (G-Ring1)"`;
hence the empty-result fallback branch of the caller cannot run. -/
theorem claim_C10 (metals parts : List String) (top_n : Nat)
    (h : 1 ≤ top_n) :
    1 ≤ (get_recommendations_for_parts metals parts top_n).length := by
  unfold get_recommendations_for_parts
  split
  · next v hv => rw [tier1_scan_err_len metals parts top_n [] v hv]; exact h
  · next a1 h1 =>
    split
    · next v hv => rw [metals_scan_err_len metals top_n a1 v hv]; exact h
    · next a2 h2 =>
      split
      · next v hv => rw [metals_scan_err_len LABELS top_n a2 v hv]; exact h
      · next a3 h3 =>
        have hmem : "Gold Ring (G-Ring1)" ∈ a3 := by
          refine metals_scan_ok_mem LABELS top_n a2 a3 h3 _ (Or.inr ?_)
          refine ⟨"Gold", by decide, ("hand",
            ["Gold Ring (G-Ring1)", "Gold Bracelet (G-Bracelet1)"]), by decide, by decide⟩
        have hpos : 0 < a3.length := List.length_pos_of_mem hmem
        rw [List.length_take]
        omega

/-- C10 witness at a concrete input. -/
theorem claim_C10_witness :
    1 ≤ 1 ∧ 1 ≤ (get_recommendations_for_parts [] [] 1).length :=
  ⟨Nat.le_refl 1, claim_C10 [] [] 1 (Nat.le_refl 1)⟩

theorem recommend_loop_nodup (colors : List RGB) (idxs : List Nat) :
    ∀ (top_k : Nat) (metals : List String), metals.Nodup →
      (recommend_loop colors idxs top_k metals).Nodup := by
  induction idxs with
  | nil => intro top_k metals h; exact h
  | cons idx rest ih =>
    intro top_k metals h
    rw [recommend_loop]
    split
    · exact dedup_append_nodup metals _ h
    · exact ih top_k _ (dedup_append_nodup metals _ h)

theorem pad_loop_nodup (labs : List String) :
    ∀ (top_k : Nat) (metals : List String), metals.Nodup →
      (pad_loop labs top_k metals).Nodup := by
  induction labs with
  | nil => intro top_k metals h; exact h
  | cons lab rest ih =>
    intro top_k metals h
    rw [pad_loop]
    split
    · exact h
    · split
      · exact ih top_k metals h
      · next hlab => exact ih top_k _ (nodup_snoc metals lab h hlab)

theorem pad_loop_subset (labs : List String) :
    ∀ (top_k : Nat) (metals : List String) (x : String),
      x ∈ metals → x ∈ pad_loop labs top_k metals := by
  induction labs with
  | nil => intro top_k metals x hx; exact hx
  | cons lab rest ih =>
    intro top_k metals x hx
    rw [pad_loop]
    split
    · exact hx
    · split
      · exact ih top_k metals x hx
      · exact ih top_k _ x (List.mem_append_left _ hx)

theorem pad_loop_short (labs : List String) :
    ∀ (top_k : Nat) (metals : List String),
      (pad_loop labs top_k metals).length < top_k →
      ∀ lab ∈ labs, lab ∈ pad_loop labs top_k metals := by
  induction labs with
  | nil => intro top_k metals _ lab hlab; simp at hlab
  | cons lab rest ih =>
    intro top_k metals hlen l hl
    rw [pad_loop] at hlen ⊢
    by_cases hge : top_k ≤ metals.length
    · rw [if_pos hge] at hlen; omega
    · rw [if_neg hge] at hlen ⊢
      rw [List.mem_cons] at hl
      by_cases hmem : lab ∈ metals
      · rw [if_pos hmem] at hlen ⊢
        rcases hl with hl | hl
        · exact pad_loop_subset rest top_k metals l (hl ▸ hmem)
        · exact ih top_k metals hlen l hl
      · rw [if_neg hmem] at hlen ⊢
        rcases hl with hl | hl
        · exact pad_loop_subset rest top_k _ l
            (List.mem_append_right _ (by simp [hl]))
        · exact ih top_k _ hlen l hl

/-- C7: `recommend_unique_metals` on an empty colors input returns `[]` for
every percentages list and every `top_k`: the zero-cluster guard fires
before any classification or fallback padding. -/
theorem claim_C7 (percentages : List ℚ) (top_k : Nat) :
    recommend_unique_metals [] percentages top_k = [] := rfl

/-- C6: for every nonempty parallel colors/percentages input and every
`top_k`, the ranked label list has no duplicates and length at most
`top_k`; and when its length falls short of `top_k` the fallback padding
has exhausted the whole fixed order `LABELS`, so every fallback label
already occurs in it. -/
theorem claim_C6 (colors : List RGB) (percentages : List ℚ) (top_k : Nat)
    (h : colors ≠ []) :
    (recommend_unique_metals colors percentages top_k).Nodup ∧
    (recommend_unique_metals colors percentages top_k).length ≤ top_k ∧
    ((recommend_unique_metals colors percentages top_k).length < top_k →
      ∀ lab ∈ LABELS, lab ∈ recommend_unique_metals colors percentages top_k) := by
  have hc : ¬ colors.length = 0 := by
    rw [List.length_eq_zero]
    exact h
  unfold recommend_unique_metals
  rw [if_neg hc]
  refine ⟨(List.take_sublist _ _).nodup
    (pad_loop_nodup LABELS top_k _
      (recommend_loop_nodup colors _ top_k [] List.nodup_nil)), ?_, ?_⟩
  · rw [List.length_take]; omega
  · intro hlen lab hlab
    rw [List.length_take] at hlen
    have hshort : (pad_loop LABELS top_k
        (recommend_loop colors ((argsort percentages).reverse) top_k [])).length
        < top_k := by omega
    rw [List.take_of_length_le (le_of_lt hshort)]
    exact pad_loop_short LABELS top_k _ hshort lab hlab

/-- C6 witness at a concrete input. -/
theorem claim_C6_witness :
    ([RGB.mk 200 50 50] ≠ ([] : List RGB)) ∧
    ((recommend_unique_metals [⟨200, 50, 50⟩] [100] 3).Nodup ∧
      (recommend_unique_metals [⟨200, 50, 50⟩] [100] 3).length ≤ 3 ∧
      ((recommend_unique_metals [⟨200, 50, 50⟩] [100] 3).length < 3 →
        ∀ lab ∈ LABELS, lab ∈ recommend_unique_metals [⟨200, 50, 50⟩] [100] 3)) :=
  ⟨by decide, claim_C6 [⟨200, 50, 50⟩] [100] 3 (by decide)⟩

/-- C3 counterexample: two clusters with equal percentages.  The claim
predicts cluster 0 (a red, "Gold" color) is visited and appended first,
giving `["Gold", "Silver"]`; the code reverses a stable ascending argsort,
so cluster 1 is visited first and the result is `["Silver", "Gold"]`. -/
theorem claim_C3_counterexample :
    recommend_unique_metals [⟨200, 50, 50⟩, ⟨50, 50, 200⟩] [50, 50] 2 =
      ["Silver", "Gold"] ∧
    recommend_unique_metals [⟨200, 50, 50⟩, ⟨50, 50, 200⟩] [50, 50] 2 ≠
      ["Gold", "Silver"] := by
  constructor
  · decide
  · decide

/-- C3 (amended): the visit order `np.argsort(percentages)[::-1]` used by
`recommend_unique_metals` is a permutation of the cluster indices sorted by
occupancy percentage descending, and when two clusters have equal
percentages the cluster with the LARGER original index is visited (and
hence classified and appended) first. -/
theorem claim_C3 (ps : List ℚ) :
    List.Sorted (fun i j => idxLe ps j i) ((argsort ps).reverse) ∧
    ((argsort ps).reverse).Perm (List.range ps.length) := by
  constructor
  · rw [List.Sorted, List.pairwise_reverse]
    exact List.sorted_insertionSort (idxLe ps) (List.range ps.length)
  · exact (List.reverse_perm (argsort ps)).trans
      (List.perm_insertionSort (idxLe ps) (List.range ps.length))

/-- C1: `color_to_metal` is total on RGB triples with components in
`[0, 255]`, follows the strict-max rules (Gold for strict-max R, else
Silver for strict-max B, else Rose Gold), never returns Platinum or
Bronze, and matches the four concrete scenario inputs. -/
theorem claim_C1 (c : RGB) (h : c.r ≤ 255 ∧ c.g ≤ 255 ∧ c.b ≤ 255) :
    (c.r > c.g ∧ c.r > c.b → color_to_metal c = "Gold") ∧
    (¬(c.r > c.g ∧ c.r > c.b) → c.b > c.r ∧ c.b > c.g →
      color_to_metal c = "Silver") ∧
    (¬(c.r > c.g ∧ c.r > c.b) → ¬(c.b > c.r ∧ c.b > c.g) →
      color_to_metal c = "Rose Gold") ∧
    color_to_metal c ≠ "Platinum" ∧
    color_to_metal c ≠ "Bronze" ∧
    color_to_metal ⟨200, 50, 50⟩ = "Gold" ∧
    color_to_metal ⟨50, 50, 200⟩ = "Silver" ∧
    color_to_metal ⟨50, 200, 50⟩ = "Rose Gold" ∧
    color_to_metal ⟨100, 100, 100⟩ = "Rose Gold" := by
  refine ⟨?_, ?_, ?_, ?_, ?_, by decide, by decide, by decide, by decide⟩
  · intro h1; unfold color_to_metal; rw [if_pos h1]
  · intro h1 h2; unfold color_to_metal; rw [if_neg h1, if_pos h2]
  · intro h1 h2; unfold color_to_metal; rw [if_neg h1, if_neg h2]
  · unfold color_to_metal
    split
    · decide
    · split
      · decide
      · decide
  · unfold color_to_metal
    split
    · decide
    · split
      · decide
      · decide

/-- C1 witness at the concrete input `(200, 50, 50)`. -/
theorem claim_C1_witness :
    ((200 : Nat) ≤ 255 ∧ (50 : Nat) ≤ 255 ∧ (50 : Nat) ≤ 255) ∧
    color_to_metal ⟨200, 50, 50⟩ = "Gold" :=
  ⟨by decide, (claim_C1 ⟨200, 50, 50⟩ (by decide)).1 (by decide)⟩

theorem sum_map_add (l : List Nat) (f g : Nat → Nat) :
    (l.map (fun x => f x + g x)).sum = (l.map f).sum + (l.map g).sum := by
  induction l with
  | nil => rfl
  | cons a as ih =>
    simp only [List.map_cons, List.sum_cons, ih]
    omega

theorem sum_map_ite_zero (x : Nat) : ∀ l : List Nat, x ∉ l →
    (l.map (fun i => if x = i then 1 else 0)).sum = 0 := by
  intro l
  induction l with
  | nil => intro; rfl
  | cons a as ih =>
    intro hx
    rw [List.map_cons, List.sum_cons]
    have h1 : x ≠ a := fun e => hx (by simp [e])
    have h2 : x ∉ as := fun e => hx (by simp [e])
    rw [if_neg h1, ih h2]

theorem sum_map_ite_one (x : Nat) : ∀ k : Nat, x < k →
    ((List.range k).map (fun i => if x = i then 1 else 0)).sum = 1 := by
  intro k
  induction k with
  | zero => intro h; omega
  | succ n ih =>
    intro h
    rw [List.range_succ, List.map_append, List.sum_append]
    by_cases hx : x = n
    · subst hx
      rw [sum_map_ite_zero x (List.range x) (by simp)]
      simp
    · have hlt : x < n := by omega
      rw [ih hlt]
      simp [hx]

theorem bincount_sum (k : Nat) : ∀ labels : List Nat,
    (∀ l ∈ labels, l < k) → (bincount k labels).sum = labels.length := by
  intro labels
  induction labels with
  | nil => intro; simp [bincount]
  | cons x ls ih =>
    intro h
    have hx : x < k := h x (by simp)
    have hrest : ∀ l ∈ ls, l < k := fun l hl => h l (by simp [hl])
    have hcount : ∀ i : Nat, (x :: ls).count i = ls.count i + if x = i then 1 else 0 := by
      intro i
      rw [List.count_cons]
      simp [beq_iff_eq]
    unfold bincount
    simp only [hcount]
    rw [sum_map_add (List.range k) (fun i => ls.count i) (fun i => if x = i then 1 else 0)]
    rw [sum_map_ite_one x k hx]
    have hih := ih hrest
    unfold bincount at hih
    rw [hih]
    simp

theorem sum_map_div_mul (l : List Nat) (t : ℚ) :
    (l.map (fun c : Nat => ((c : ℚ) / t) * 100)).sum = ((l.sum : ℚ) / t) * 100 := by
  induction l with
  | nil => simp
  | cons a as ih =>
    rw [List.map_cons, List.sum_cons, ih, List.sum_cons]
    push_cast
    ring

/-- C8: on zero input images `combine_and_extract` returns a pair of empty
lists, and the clustering step is never invoked on the empty pool: the
result does not depend on the clustering function at all, so no clustering
failure can occur. -/
theorem claim_C8 (Image : Type) (resizeFlatten : Image → List RGB)
    (kmeans kmeans2 : List RGB → List RGB × List Nat) (clusters : Nat) :
    combine_and_extract resizeFlatten kmeans ([] : List Image) clusters = ([], []) ∧
    combine_and_extract resizeFlatten kmeans ([] : List Image) clusters =
      combine_and_extract resizeFlatten kmeans2 ([] : List Image) clusters :=
  ⟨rfl, rfl⟩

/-- C9: for every nonempty pixel pool, and any k-means labelling that
assigns each sample a cluster index below `clusters`, the occupancy
percentages returned by `extract_color_from_pixel_array` sum to exactly
100 in rational arithmetic. -/
theorem claim_C9 (kmeans : List RGB → List RGB × List Nat)
    (pixel_array : List RGB) (clusters : Nat) (hne : pixel_array ≠ [])
    (hlen : (kmeans pixel_array).2.length = pixel_array.length)
    (hlab : ∀ l ∈ (kmeans pixel_array).2, l < clusters) :
    ((extract_color_from_pixel_array kmeans pixel_array clusters).2).sum = 100 := by
  unfold extract_color_from_pixel_array percentagesOf
  rw [sum_map_div_mul]
  rw [bincount_sum clusters (kmeans pixel_array).2 hlab]
  have hpos : 0 < (kmeans pixel_array).2.length := by
    rw [hlen]
    exact List.length_pos.mpr hne
  have hne2 : (((kmeans pixel_array).2.length : Nat) : ℚ) ≠ 0 :=
    Nat.cast_ne_zero.mpr (by omega)
  rw [div_self hne2, one_mul]

/-- C9 witness: a one-pixel pool with a one-cluster labelling. -/
theorem claim_C9_witness :
    ([RGB.mk 1 2 3] ≠ ([] : List RGB)) ∧
    (constKMeans [⟨1, 2, 3⟩]).2.length = ([RGB.mk 1 2 3] : List RGB).length ∧
    (∀ l ∈ (constKMeans [⟨1, 2, 3⟩]).2, l < 1) ∧
    ((extract_color_from_pixel_array constKMeans [⟨1, 2, 3⟩] 1).2).sum = 100 :=
  ⟨by decide, by decide, by decide,
    claim_C9 constKMeans [⟨1, 2, 3⟩] 1 (by decide) (by decide) (by decide)⟩
